import Mathlib

/-!
Verification of the Heltec HRI-4851L LoRaWAN payload formatter.

The development shallowly embeds the two JavaScript entry points of the
repository, `decodeUplink` (src/uplinkPayloadFormatter.js) and
`encodeDownlink` (src/downlinkPayloadFormatter.js), and proves properties
of the embedding.

Modelling conventions:
* JavaScript numbers are modelled as exact values: integers stay `Int`,
  general numeric results are `JsNum` (an exact rational, `+Infinity`,
  `-Infinity`, or `NaN`).  IEEE-754 double rounding of divisions is
  abstracted to exact rational division.
* The 32-bit wrapping semantics of the JavaScript bitwise operators
  (`<<`, `>>`, `&`, `|`, which act on `ToInt32`/`ToUint32` images of their
  operands) is modelled exactly by `jsShl`, `jsShr`, `jsAnd`, `jsOr`.
* Array reads `bytes[i]` are modelled by `byteAt`, together with an
  instrumentation stream that records every index the decode loop reads.
  A read past the end of the list yields 0 here (JavaScript yields
  `undefined`); all value-level theorems below are evaluated on frames
  where every performed read is in range, so the values agree with the
  source, and the read-tracking component is exact for every input.
* The base64 envelope handling of the source (a transport concern) is
  outside the decoder proper; the embedding takes the resolved byte list.
-/

/-- JavaScript `ToUint32`: the operand reduced into `[0, 2^32)`. -/
def u32 (a : Int) : Nat := (a % 4294967296).toNat

/-- Reinterpret a 32-bit residue as a signed 32-bit value (`ToInt32` image). -/
def asI32 (m : Nat) : Int :=
  if m % 4294967296 < 2147483648 then ((m % 4294967296 : Nat) : Int)
  else ((m % 4294967296 : Nat) : Int) - 4294967296

/-- JavaScript `ToInt32`. -/
def toInt32 (a : Int) : Int := asI32 (u32 a)

/-- JavaScript `a << b` (shift count taken mod 32, result wrapped to int32). -/
def jsShl (a b : Int) : Int := asI32 (u32 a * 2 ^ (u32 b % 32))

/-- JavaScript `a >> b` (arithmetic shift right on the int32 image). -/
def jsShr (a b : Int) : Int := toInt32 a / (2 ^ (u32 b % 32) : Nat)

/-- JavaScript `a & b` on int32 images. -/
def jsAnd (a b : Int) : Int := asI32 (u32 a &&& u32 b)

/-- JavaScript `a | b` on int32 images. -/
def jsOr (a b : Int) : Int := asI32 (u32 a ||| u32 b)

/-- A JavaScript number, modelled exactly. -/
inductive JsNum where
  | q : ℚ → JsNum
  | posInf : JsNum
  | negInf : JsNum
  | nan : JsNum
deriving DecidableEq, Repr

/-- JavaScript division of a number by a (plain rational) number, as used by
`rawValue / map.scale` in the decoder.  Division by zero follows the IEEE
rules (`x/0 = ±Infinity` for `x ≠ 0`, `0/0 = NaN`). -/
def jsDivNum (a : JsNum) (s : ℚ) : JsNum :=
  match a with
  | .q x =>
      if s = 0 then (if 0 < x then .posInf else if x < 0 then .negInf else .nan)
      else .q (x / s)
  | .posInf => if s < 0 then .negInf else .posInf
  | .negInf => if s < 0 then .posInf else .negInf
  | .nan => .nan

/-- Exact value of an IEEE-754 binary32 bit pattern, as produced by
`DataView.getFloat32` (big-endian) in the source. -/
def f32FromBits (n : Nat) : JsNum :=
  let s := n / 2147483648 % 2
  let e := n / 8388608 % 256
  let m := n % 8388608
  if e = 255 then
    (if m = 0 then (if s = 1 then .negInf else .posInf) else .nan)
  else if e = 0 then
    .q ((if s = 1 then (-1 : ℚ) else 1) * (m : ℚ) * 2 / 2 ^ 150)
  else
    .q ((if s = 1 then (-1 : ℚ) else 1) * ((8388608 + m : ℚ) * 2 ^ e) / 2 ^ 150)

/-- A decoded field value: either a scalar number or a bitmask flag object. -/
inductive DecodedValue where
  | num : JsNum → DecodedValue
  | flags : List (String × Bool) → DecodedValue
deriving DecidableEq, Repr

/-- One register definition of the device map
(src/uplinkPayloadFormatter.js, the `deviceMap` literal). -/
structure RegisterDef where
  name : String
  type : String
  scale : ℚ
  endian : String
  bitmask : Option (List (Nat × String))
deriving DecidableEq, Repr

/-- `registerMap[regIndex]` — lookup of a register definition by logical
register index. -/
def lookupReg (regMap : List (Nat × RegisterDef)) (i : Nat) : Option RegisterDef :=
  (regMap.find? (fun p => p.1 == i)).map Prod.snd

/-- Largest declared register index of a map (0 for the empty map). -/
def maxKey (regMap : List (Nat × RegisterDef)) : Nat :=
  regMap.foldr (fun p acc => max p.1 acc) 0

/-- The hard-coded device catalog of src/uplinkPayloadFormatter.js. -/
def deviceMap : List (Nat × List (Nat × RegisterDef)) :=
  [ (1, [ (0, ⟨"temperature", "int16", 1000, "big", none⟩),
          (1, ⟨"status", "uint16", 1, "big",
               some [(0, "system_ok"), (1, "heater_on"), (2, "fan_on"),
                     (3, "error_flag"), (4, "maintenance_required")]⟩),
          (2, ⟨"energy_total", "uint32", 1, "big", none⟩) ]),
    (2, [ (0, ⟨"co2", "uint16", 1, "big", none⟩),
          (1, ⟨"voc", "float32", 1, "mixed", none⟩),
          (3, ⟨"power", "int32", 10, "little", none⟩) ]) ]

/-- `deviceMap[slaveAddress] || {}`. -/
def lookupDevice (slave : Nat) : List (Nat × RegisterDef) :=
  ((deviceMap.find? (fun p => p.1 == slave)).map Prod.snd).getD []

/-- `bytes[i]`, with past-the-end reads yielding 0 (see the header note). -/
def byteAt (bytes : List Nat) (i : Nat) : Nat := bytes.getD i 0

/-- One mapped-register step of the decode loop: the `if/else if` chain on
`map.type` in the body of the `while` of `decodeUplink`.  Returns the stored
value (if any), the number of bytes consumed (`offset` advance), and the list
of byte indices read, in read order.  An unrecognised type string matches no
branch: nothing is stored, read, or consumed. -/
def decodeReg (m : RegisterDef) (bytes : List Nat) (offset : Nat) :
    Option DecodedValue × Nat × List Nat :=
  if m.type = "uint16" then
    let hi0 : Int := byteAt bytes offset
    let lo0 : Int := byteAt bytes (offset + 1)
    let hi := if m.endian = "little" then lo0 else hi0
    let lo := if m.endian = "little" then hi0 else lo0
    let rawValue := jsOr (jsShl hi 8) lo
    match m.bitmask with
    | some table =>
        (some (DecodedValue.flags (table.map (fun p =>
            (p.2, jsAnd rawValue (jsShl 1 (p.1 : Int)) != 0)))),
         2, [offset, offset + 1])
    | none =>
        (some (DecodedValue.num (jsDivNum (JsNum.q (rawValue : ℚ)) m.scale)),
         2, [offset, offset + 1])
  else if m.type = "int16" then
    let hi0 : Int := byteAt bytes offset
    let lo0 : Int := byteAt bytes (offset + 1)
    let hi := if m.endian = "little" then lo0 else hi0
    let lo := if m.endian = "little" then hi0 else lo0
    let raw0 := jsOr (jsShl hi 8) lo
    let rawValue := if jsAnd raw0 32768 != 0 then raw0 - 65536 else raw0
    (some (DecodedValue.num (jsDivNum (JsNum.q (rawValue : ℚ)) m.scale)),
     2, [offset, offset + 1])
  else if m.type = "uint32" then
    let c0 : Int := byteAt bytes offset
    let c1 : Int := byteAt bytes (offset + 1)
    let c2 : Int := byteAt bytes (offset + 2)
    let c3 : Int := byteAt bytes (offset + 3)
    let b0 := if m.endian = "little" then c3 else c0
    let b1 := if m.endian = "little" then c2 else c1
    let b2 := if m.endian = "little" then c1 else c2
    let b3 := if m.endian = "little" then c0 else c3
    let rawValue := b0 * 16777216 + jsShl b1 16 + jsShl b2 8 + b3
    (some (DecodedValue.num (jsDivNum (JsNum.q (rawValue : ℚ)) m.scale)),
     4, [offset, offset + 1, offset + 2, offset + 3])
  else if m.type = "int32" then
    let c0 : Int := byteAt bytes offset
    let c1 : Int := byteAt bytes (offset + 1)
    let c2 : Int := byteAt bytes (offset + 2)
    let c3 : Int := byteAt bytes (offset + 3)
    let b0 := if m.endian = "little" then c3 else c0
    let b1 := if m.endian = "little" then c2 else c1
    let b2 := if m.endian = "little" then c1 else c2
    let b3 := if m.endian = "little" then c0 else c3
    let raw0 := jsOr (jsOr (jsOr (jsShl b0 24) (jsShl b1 16)) (jsShl b2 8)) b3
    let rawValue := if jsAnd raw0 2147483648 != 0 then raw0 - 4294967296 else raw0
    (some (DecodedValue.num (jsDivNum (JsNum.q (rawValue : ℚ)) m.scale)),
     4, [offset, offset + 1, offset + 2, offset + 3])
  else if m.type = "float32" then
    let c0 := byteAt bytes offset
    let c1 := byteAt bytes (offset + 1)
    let c2 := byteAt bytes (offset + 2)
    let c3 := byteAt bytes (offset + 3)
    let d0 := if m.endian = "little" then c3 else c0
    let d1 := if m.endian = "little" then c2 else c1
    let d2 := if m.endian = "little" then c1 else c2
    let d3 := if m.endian = "little" then c0 else c3
    let e0 := if m.endian = "mixed" then d2 else d0
    let e1 := if m.endian = "mixed" then d3 else d1
    let e2 := if m.endian = "mixed" then d0 else d2
    let e3 := if m.endian = "mixed" then d1 else d3
    let bits := (e0 % 256) * 16777216 + (e1 % 256) * 65536 + (e2 % 256) * 256 + e3 % 256
    (some (DecodedValue.num (jsDivNum (f32FromBits bits) m.scale)),
     4, [offset, offset + 1, offset + 2, offset + 3])
  else
    (none, 0, [])

/-- The `while (offset < 3 + byteCount)` loop of `decodeUplink`, written with
a fuel parameter so that it computes structurally.  `decodeLoop` below
supplies provably sufficient fuel.  Result: the decoded `(name, value)` pairs
in insertion order, and the byte indices read, in read order. -/
def decodeLoopFuel (bytes : List Nat) (byteCount : Nat)
    (regMap : List (Nat × RegisterDef)) :
    Nat → Nat → Nat → List (String × DecodedValue) × List Nat
  | 0, _, _ => ([], [])
  | fuel + 1, offset, regIndex =>
    if offset < 3 + byteCount then
      match lookupReg regMap regIndex with
      | none =>
          let raw := jsOr (jsShl (byteAt bytes offset : Int) 8)
                          (byteAt bytes (offset + 1) : Int)
          let rest := decodeLoopFuel bytes byteCount regMap fuel (offset + 2) (regIndex + 1)
          (("register_" ++ toString regIndex, DecodedValue.num (JsNum.q (raw : ℚ))) :: rest.1,
           offset :: (offset + 1) :: rest.2)
      | some m =>
          let step := decodeReg m bytes offset
          let rest := decodeLoopFuel bytes byteCount regMap fuel (offset + step.2.1) (regIndex + 1)
          ((match step.1 with
            | some v => (m.name, v) :: rest.1
            | none => rest.1),
           step.2.2 ++ rest.2)
    else ([], [])

/-- Strictly decreasing measure of the loop state `(offset, regIndex)`:
remaining declared bytes plus remaining declared register indices. -/
def loopMeasure (byteCount : Nat) (regMap : List (Nat × RegisterDef))
    (offset regIndex : Nat) : Nat :=
  (3 + byteCount - offset) + (maxKey regMap + 1 - regIndex)

/-- The decode loop with sufficient fuel: the faithful rendering of the
source's `while` loop (which terminates; see `c10_unknown_type_skips`). -/
def decodeLoop (bytes : List Nat) (byteCount : Nat)
    (regMap : List (Nat × RegisterDef)) (offset regIndex : Nat) :
    List (String × DecodedValue) × List Nat :=
  decodeLoopFuel bytes byteCount regMap
    (loopMeasure byteCount regMap offset regIndex + 1) offset regIndex

/-- Successful decode payload: the three echoed header fields plus the
decoded value mapping. -/
structure DecodeData where
  slaveAddress : Nat
  functionCode : Nat
  values : List (String × DecodedValue)
deriving DecidableEq, Repr

/-- Result shape of `decodeUplink`: `{ data: ... }` or `{ errors: [...] }`. -/
inductive DecodeResult where
  | data : DecodeData → DecodeResult
  | errors : List String → DecodeResult
deriving DecidableEq, Repr

/-- `decodeUplink` of src/uplinkPayloadFormatter.js, on the resolved byte
list (the base64 envelope fallbacks resolve to such a list upstream). -/
def decodeUplink (bytes : List Nat) : DecodeResult :=
  if bytes.length = 0 then .errors ["No payload bytes found."]
  else
    let slaveAddress := byteAt bytes 0
    let functionCode := byteAt bytes 1
    let byteCount := byteAt bytes 2
    let registerMap := lookupDevice slaveAddress
    .data ⟨slaveAddress, functionCode, (decodeLoop bytes byteCount registerMap 3 0).1⟩

/-- The byte indices the decode loop of `decodeUplink` reads, in read order
(empty-payload error case reads nothing in the loop). -/
def decodeUplinkReads (bytes : List Nat) : List Nat :=
  if bytes.length = 0 then []
  else (decodeLoop bytes (byteAt bytes 2) (lookupDevice (byteAt bytes 0)) 3 0).2

/-- One iteration of the decode loop on the `(offset, regIndex)` state
(identity once the loop guard fails), used to state loop termination. -/
def loopStep (byteCount : Nat) (regMap : List (Nat × RegisterDef))
    (s : Nat × Nat) : Nat × Nat :=
  if s.1 < 3 + byteCount then
    match lookupReg regMap s.2 with
    | none => (s.1 + 2, s.2 + 1)
    | some m => (s.1 + (decodeReg m [] s.1).2.1, s.2 + 1)
  else s

/-- The JSON input object of `encodeDownlink`; absent/undefined fields are
`none`. -/
structure DownlinkInput where
  slaveAddress : Option Int
  functionCode : Option Int
  register : Option Int
  values : Option (List Int)
deriving DecidableEq, Repr

/-- Result shape of `encodeDownlink`: `{ bytes: [...] }` or
`{ errors: [...] }`. -/
inductive EncodeResult where
  | ok : List Int → EncodeResult
  | err : List String → EncodeResult
deriving DecidableEq, Repr

/-- Whether an encode result is the success shape. -/
def EncodeResult.isOk : EncodeResult → Bool
  | .ok _ => true
  | .err _ => false

/-- The byte list of a success result (empty for errors). -/
def EncodeResult.okBytes : EncodeResult → List Int
  | .ok bs => bs
  | .err _ => []

/-- The message list of an error result (empty for successes). -/
def EncodeResult.errList : EncodeResult → List String
  | .ok _ => []
  | .err es => es

/-- `encodeDownlink` of src/downlinkPayloadFormatter.js.  The source pushes
the four header bytes before branching on the function code, but every error
return discards them, so building the lists per branch is equivalent. -/
def encodeDownlink (input : DownlinkInput) : EncodeResult :=
  match input.slaveAddress, input.functionCode, input.register, input.values with
  | some slave, some func, some reg, some vals =>
      let header := [jsAnd slave 255, jsAnd func 255, jsAnd (jsShr reg 8) 255, jsAnd reg 255]
      if func = 6 then
        let value := vals.headD 0
        .ok (header ++ [jsAnd (jsShr value 8) 255, jsAnd value 255])
      else if func = 16 then
        let count : Int := vals.length
        .ok (header ++ [jsAnd (jsShr count 8) 255, jsAnd count 255, count * 2] ++
             vals.flatMap (fun v => [jsAnd (jsShr v 8) 255, jsAnd v 255]))
      else
        .err ["Unsupported function code. Use 6 (0x06) or 16 (0x10)."]
  | _, _, _, _ =>
      .err ["Missing required fields: slaveAddress, functionCode, register, values"]

/-- The `int16` reconstruction exactly as §4.3 of the specification describes
it: optional byte swap for `little`, big-endian 16-bit combine, then
two's-complement conversion when bit 0x8000 is set. -/
def specInt16 (endian : String) (hi lo : Nat) : Int :=
  let u : Nat := if endian = "little" then lo * 256 + hi else hi * 256 + lo
  if 32768 ≤ u then (u : Int) - 65536 else (u : Int)

/-! ### Arithmetic characterisation of the JavaScript bit operations -/

theorem u32_natCast (n : Nat) (h : n < 4294967296) : u32 (n : Int) = n := by
  unfold u32
  omega

theorem asI32_small (m : Nat) (h : m < 2147483648) : asI32 m = (m : Int) := by
  unfold asI32
  rw [Nat.mod_eq_of_lt (by omega)]
  simp [h]

theorem asI32_large (m : Nat) (h1 : 2147483648 ≤ m) (h2 : m < 4294967296) :
    asI32 m = (m : Int) - 4294967296 := by
  unfold asI32
  rw [Nat.mod_eq_of_lt h2]
  simp only [if_neg (by omega : ¬ m < 2147483648)]

theorem u32_asI32 (m : Nat) (h : m < 4294967296) : u32 (asI32 m) = m := by
  by_cases hs : m < 2147483648
  · rw [asI32_small m hs, u32_natCast m h]
  · rw [asI32_large m (by omega) h]
    unfold u32
    omega

theorem jsShl_eval (a : Nat) (k : Int) (kn : Nat) (hk : u32 k % 32 = kn)
    (ha : a < 4294967296) (h : a * 2 ^ kn < 2147483648) :
    jsShl (a : Int) k = ((a * 2 ^ kn : Nat) : Int) := by
  unfold jsShl
  rw [u32_natCast a ha, hk, asI32_small _ h]

theorem lor_disjoint (k a b : Nat) (h : b < 2 ^ k) :
    (2 ^ k * a) ||| b = 2 ^ k * a + b := by
  apply Nat.eq_of_testBit_eq
  intro j
  have hz : Nat.testBit (2 ^ k * a) j = if j < k then false else a.testBit (j - k) := by
    have h0 := Nat.testBit_mul_pow_two_add a (Nat.pos_pow_of_pos k (by norm_num) : 0 < 2 ^ k) j
    simpa using h0
  rw [Nat.testBit_lor, Nat.testBit_mul_pow_two_add a h j, hz]
  by_cases hj : j < k
  · simp [hj]
  · have hb : b.testBit j = false :=
      Nat.testBit_eq_false_of_lt (lt_of_lt_of_le h (Nat.pow_le_pow_right (by norm_num) (by omega)))
    simp [hj, hb]

theorem jsOr_combine16 (h l : Nat) (hh : h < 256) (hl : l < 256) :
    jsOr (jsShl (h : Int) 8) (l : Int) = ((h * 256 + l : Nat) : Int) := by
  rw [jsShl_eval h 8 8 rfl (by omega) (by omega)]
  unfold jsOr
  rw [u32_natCast _ (by omega), u32_natCast l (by omega)]
  have hd : (2 ^ 8 * h) ||| l = 2 ^ 8 * h + l := lor_disjoint 8 h l (by omega)
  rw [show h * 2 ^ 8 = 2 ^ 8 * h by ring, hd, asI32_small _ (by omega)]
  norm_num [Nat.mul_comm]

/-! ### Loop infrastructure -/

theorem mem_le_maxKey (regMap : List (Nat × RegisterDef)) (q : Nat × RegisterDef)
    (hq : q ∈ regMap) : q.1 ≤ maxKey regMap := by
  induction regMap with
  | nil => simp at hq
  | cons p rest ih =>
      unfold maxKey at *
      rcases List.mem_cons.mp hq with h1 | h2
      · subst h1
        simp only [List.foldr_cons]
        omega
      · have := ih h2
        simp only [List.foldr_cons]
        omega

theorem lookupReg_le_maxKey (regMap : List (Nat × RegisterDef)) (i : Nat) (m : RegisterDef)
    (h : lookupReg regMap i = some m) : i ≤ maxKey regMap := by
  unfold lookupReg at h
  rcases Option.map_eq_some'.mp h with ⟨q, hq, hv⟩
  have hmem := List.mem_of_find?_eq_some hq
  have hpq := List.find?_some hq
  have hqi : q.1 = i := by simpa using hpq
  have := mem_le_maxKey regMap q hmem
  omega

theorem decodeReg_adv (m : RegisterDef) (bytes : List Nat) (offset : Nat) :
    (decodeReg m bytes offset).2.1 = 2 ∨ (decodeReg m bytes offset).2.1 = 4 ∨
      (decodeReg m bytes offset).2.1 = 0 := by
  unfold decodeReg
  repeat' split
  all_goals simp

theorem decodeLoopFuel_congr (bytes : List Nat) (byteCount : Nat)
    (regMap : List (Nat × RegisterDef)) :
    ∀ f g offset ri, loopMeasure byteCount regMap offset ri < f →
      loopMeasure byteCount regMap offset ri < g →
      decodeLoopFuel bytes byteCount regMap f offset ri =
        decodeLoopFuel bytes byteCount regMap g offset ri := by
  intro f
  induction f with
  | zero => intro g offset ri hf; omega
  | succ f ih =>
      intro g offset ri hf hg
      obtain ⟨g', rfl⟩ : ∃ g'', g = g'' + 1 := ⟨g - 1, by omega⟩
      simp only [decodeLoopFuel]
      by_cases hoff : offset < 3 + byteCount
      · simp only [if_pos hoff]
        cases hm : lookupReg regMap ri with
        | none =>
            have hrec := ih g' (offset + 2) (ri + 1)
              (by unfold loopMeasure at *; omega) (by unfold loopMeasure at *; omega)
            simp only [hrec]
        | some m =>
            have hkey := lookupReg_le_maxKey regMap ri m hm
            have hadv := decodeReg_adv m bytes offset
            have hrec := ih g' (offset + (decodeReg m bytes offset).2.1) (ri + 1)
              (by unfold loopMeasure at *; omega) (by unfold loopMeasure at *; omega)
            simp only [hrec]
      · simp only [if_neg hoff]

theorem decodeLoop_stop (bytes : List Nat) (byteCount : Nat)
    (regMap : List (Nat × RegisterDef)) (offset ri : Nat)
    (h : ¬ offset < 3 + byteCount) :
    decodeLoop bytes byteCount regMap offset ri = ([], []) := by
  unfold decodeLoop
  rw [show loopMeasure byteCount regMap offset ri + 1 =
      (loopMeasure byteCount regMap offset ri) + 1 from rfl]
  simp only [decodeLoopFuel, if_neg h]

theorem decodeLoop_fallback (bytes : List Nat) (byteCount : Nat)
    (regMap : List (Nat × RegisterDef)) (offset ri : Nat)
    (h : offset < 3 + byteCount) (hm : lookupReg regMap ri = none) :
    decodeLoop bytes byteCount regMap offset ri =
      (("register_" ++ toString ri,
          DecodedValue.num (JsNum.q
            ((jsOr (jsShl (byteAt bytes offset : Int) 8) (byteAt bytes (offset + 1) : Int) : Int) : ℚ)))
          :: (decodeLoop bytes byteCount regMap (offset + 2) (ri + 1)).1,
       offset :: (offset + 1) :: (decodeLoop bytes byteCount regMap (offset + 2) (ri + 1)).2) := by
  conv_lhs => unfold decodeLoop
  simp only [decodeLoopFuel, if_pos h, hm]
  rw [decodeLoopFuel_congr bytes byteCount regMap
        (loopMeasure byteCount regMap offset ri)
        (loopMeasure byteCount regMap (offset + 2) (ri + 1) + 1)
        (offset + 2) (ri + 1)
        (by unfold loopMeasure; omega) (by omega)]
  rfl

theorem decodeLoop_mapped (bytes : List Nat) (byteCount : Nat)
    (regMap : List (Nat × RegisterDef)) (offset ri : Nat) (m : RegisterDef)
    (h : offset < 3 + byteCount) (hm : lookupReg regMap ri = some m) :
    decodeLoop bytes byteCount regMap offset ri =
      ((match (decodeReg m bytes offset).1 with
        | some v => (m.name, v) ::
            (decodeLoop bytes byteCount regMap (offset + (decodeReg m bytes offset).2.1) (ri + 1)).1
        | none =>
            (decodeLoop bytes byteCount regMap (offset + (decodeReg m bytes offset).2.1) (ri + 1)).1),
       (decodeReg m bytes offset).2.2 ++
         (decodeLoop bytes byteCount regMap (offset + (decodeReg m bytes offset).2.1) (ri + 1)).2) := by
  have hkey := lookupReg_le_maxKey regMap ri m hm
  have hadv := decodeReg_adv m bytes offset
  conv_lhs => unfold decodeLoop
  simp only [decodeLoopFuel, if_pos h, hm]
  rw [decodeLoopFuel_congr bytes byteCount regMap
        (loopMeasure byteCount regMap offset ri)
        (loopMeasure byteCount regMap (offset + (decodeReg m bytes offset).2.1) (ri + 1) + 1)
        (offset + (decodeReg m bytes offset).2.1) (ri + 1)
        (by unfold loopMeasure at *; omega) (by omega)]
  rfl

/-! ### More arithmetic characterisations -/

theorem jsShl_asI32 (a : Nat) (k : Int) (kn : Nat) (hk : u32 k % 32 = kn)
    (ha : a < 4294967296) : jsShl (a : Int) k = asI32 (a * 2 ^ kn) := by
  unfold jsShl
  rw [u32_natCast a ha, hk]

theorem jsOr_asI32 (x y : Nat) (hx : x < 4294967296) (hy : y < 4294967296) :
    jsOr (asI32 x) (asI32 y) = asI32 (x ||| y) := by
  unfold jsOr
  rw [u32_asI32 x hx, u32_asI32 y hy]

theorem lor_disjoint' (k a b : Nat) (h : b < 2 ^ k) : (a * 2 ^ k) ||| b = a * 2 ^ k + b := by
  rw [Nat.mul_comm a (2 ^ k)]
  exact lor_disjoint k a b h

theorem jsOr_combine32 (b0 b1 b2 b3 : Nat) (h0 : b0 < 256) (h1 : b1 < 256)
    (h2 : b2 < 256) (h3 : b3 < 256) :
    jsOr (jsOr (jsOr (jsShl (b0 : Int) 24) (jsShl (b1 : Int) 16)) (jsShl (b2 : Int) 8)) (b3 : Int)
      = asI32 (b0 * 16777216 + b1 * 65536 + b2 * 256 + b3) := by
  rw [jsShl_asI32 b0 24 24 (by decide) (by omega),
      jsShl_asI32 b1 16 16 (by decide) (by omega),
      jsShl_asI32 b2 8 8 (by decide) (by omega),
      show ((b3 : Nat) : Int) = asI32 b3 from (asI32_small b3 (by omega)).symm]
  rw [jsOr_asI32 _ _ (by nlinarith) (by nlinarith)]
  have hA : (b0 * 2 ^ 24) ||| (b1 * 2 ^ 16) = b0 * 2 ^ 24 + b1 * 2 ^ 16 :=
    lor_disjoint' 24 b0 (b1 * 2 ^ 16) (by nlinarith)
  rw [hA]
  rw [jsOr_asI32 _ _ (by nlinarith) (by nlinarith)]
  have hB : (b0 * 2 ^ 24 + b1 * 2 ^ 16) ||| (b2 * 2 ^ 8)
      = b0 * 2 ^ 24 + b1 * 2 ^ 16 + b2 * 2 ^ 8 := by
    have := lor_disjoint' 16 (b0 * 2 ^ 8 + b1) (b2 * 2 ^ 8) (by nlinarith)
    calc (b0 * 2 ^ 24 + b1 * 2 ^ 16) ||| (b2 * 2 ^ 8)
        = ((b0 * 2 ^ 8 + b1) * 2 ^ 16) ||| (b2 * 2 ^ 8) := by ring_nf
      _ = (b0 * 2 ^ 8 + b1) * 2 ^ 16 + b2 * 2 ^ 8 := this
      _ = b0 * 2 ^ 24 + b1 * 2 ^ 16 + b2 * 2 ^ 8 := by ring
  rw [hB]
  rw [jsOr_asI32 _ _ (by nlinarith) (by omega)]
  have hC : (b0 * 2 ^ 24 + b1 * 2 ^ 16 + b2 * 2 ^ 8) ||| b3
      = b0 * 2 ^ 24 + b1 * 2 ^ 16 + b2 * 2 ^ 8 + b3 := by
    have := lor_disjoint' 8 (b0 * 2 ^ 16 + b1 * 2 ^ 8 + b2) b3 (by omega)
    calc (b0 * 2 ^ 24 + b1 * 2 ^ 16 + b2 * 2 ^ 8) ||| b3
        = ((b0 * 2 ^ 16 + b1 * 2 ^ 8 + b2) * 2 ^ 8) ||| b3 := by ring_nf
      _ = (b0 * 2 ^ 16 + b1 * 2 ^ 8 + b2) * 2 ^ 8 + b3 := this
      _ = b0 * 2 ^ 24 + b1 * 2 ^ 16 + b2 * 2 ^ 8 + b3 := by ring
  rw [hC]
  norm_num

theorem jsAnd_sign32 (x : Nat) (h : x < 4294967296) :
    (jsAnd (asI32 x) 2147483648 != 0) = decide (2147483648 ≤ x) := by
  unfold jsAnd
  rw [u32_asI32 x h, show u32 (2147483648 : Int) = 2147483648 from by decide]
  have hand : x &&& 2147483648 = (x.testBit 31).toNat * 2147483648 := by
    have h2 := Nat.and_two_pow x 31
    norm_num at h2
    exact h2
  have htb : x.testBit 31 = decide (2147483648 ≤ x) := by
    rw [Nat.testBit_to_div_mod]
    have hd : x / 2 ^ 31 = if 2147483648 ≤ x then 1 else 0 := by
      split <;> norm_num <;> omega
    rw [hd]
    split <;> simp_all
  rw [hand, htb]
  rcases Nat.lt_or_ge x 2147483648 with hlt | hge
  · rw [decide_eq_false (by omega)]
    norm_num
    rw [asI32_small 0 (by norm_num)]
    simp
  · rw [decide_eq_true (by omega : 2147483648 ≤ x)]
    norm_num
    rw [asI32_large 2147483648 le_rfl (by norm_num)]
    norm_num

theorem jsAnd_sign16 (x : Nat) (h : x < 65536) :
    (jsAnd ((x : Nat) : Int) 32768 != 0) = decide (32768 ≤ x) := by
  unfold jsAnd
  rw [u32_natCast x (by omega), show u32 (32768 : Int) = 32768 from by decide]
  have hand : x &&& 32768 = (x.testBit 15).toNat * 32768 := by
    have h2 := Nat.and_two_pow x 15
    norm_num at h2
    exact h2
  have htb : x.testBit 15 = decide (32768 ≤ x) := by
    rw [Nat.testBit_to_div_mod]
    have hd : x / 2 ^ 15 = if 32768 ≤ x then 1 else 0 := by
      split <;> norm_num <;> omega
    rw [hd]
    split <;> simp_all
  rw [hand, htb]
  rcases Nat.lt_or_ge x 32768 with hlt | hge
  · rw [decide_eq_false (by omega)]
    norm_num
    rw [asI32_small 0 (by norm_num)]
    simp
  · rw [decide_eq_true (by omega : 32768 ≤ x)]
    norm_num
    rw [asI32_small 32768 (by norm_num)]
    simp

theorem jsAnd_255_range (a : Int) : 0 ≤ jsAnd a 255 ∧ jsAnd a 255 ≤ 255 := by
  unfold jsAnd
  rw [show u32 (255 : Int) = 255 from by decide]
  have hle : u32 a &&& 255 ≤ 255 := Nat.and_le_right
  rw [asI32_small _ (by omega)]
  omega

theorem jsAnd_255_eq (a : Int) (h0 : 0 ≤ a) (h1 : a < 4294967296) :
    jsAnd a 255 = a % 256 := by
  unfold jsAnd
  rw [show u32 (255 : Int) = 255 from by decide]
  have hu : u32 a = a.toNat := by
    unfold u32
    rw [Int.emod_eq_of_lt h0 h1]
  have hmod : a.toNat &&& 255 = a.toNat % 256 := by
    have h2 := Nat.and_pow_two_sub_one_eq_mod a.toNat 8
    norm_num at h2
    exact h2
  rw [hu, hmod, asI32_small _ (by omega)]
  omega

theorem jsShr_eval (a : Int) (k : Int) (kn : Nat) (hk : u32 k % 32 = kn)
    (h0 : 0 ≤ a) (h1 : a < 2147483648) : jsShr a k = a / 2 ^ kn := by
  unfold jsShr toInt32
  have hu : u32 a = a.toNat := by
    unfold u32
    rw [Int.emod_eq_of_lt h0 (by omega)]
  rw [hu, hk, asI32_small _ (by omega), Int.toNat_of_nonneg h0]
  norm_num

/-! ### Termination of the decode loop -/

theorem loopStep_measure (byteCount : Nat) (regMap : List (Nat × RegisterDef))
    (s : Nat × Nat) (h : s.1 < 3 + byteCount) :
    loopMeasure byteCount regMap (loopStep byteCount regMap s).1 (loopStep byteCount regMap s).2
      < loopMeasure byteCount regMap s.1 s.2 := by
  unfold loopStep
  rw [if_pos h]
  cases hm : lookupReg regMap s.2 with
  | none =>
      unfold loopMeasure
      simp only
      omega
  | some m =>
      have hkey := lookupReg_le_maxKey regMap s.2 m hm
      have hadv := decodeReg_adv m [] s.1
      unfold loopMeasure
      simp only
      omega

theorem loopStep_reaches_exit (byteCount : Nat) (regMap : List (Nat × RegisterDef)) :
    ∀ s : Nat × Nat, ∃ n : Nat,
      ¬ (((loopStep byteCount regMap)^[n] s).1 < 3 + byteCount) := by
  have H : ∀ k s, loopMeasure byteCount regMap s.1 s.2 ≤ k →
      ∃ n : Nat, ¬ (((loopStep byteCount regMap)^[n] s).1 < 3 + byteCount) := by
    intro k
    induction k with
    | zero =>
        intro s hs
        refine ⟨0, ?_⟩
        simp only [Function.iterate_zero, id]
        unfold loopMeasure at hs
        omega
    | succ k ih =>
        intro s hs
        by_cases hg : s.1 < 3 + byteCount
        · have hdec := loopStep_measure byteCount regMap s hg
          obtain ⟨n, hn⟩ := ih (loopStep byteCount regMap s) (by omega)
          refine ⟨n + 1, ?_⟩
          rw [Function.iterate_succ_apply]
          exact hn
        · exact ⟨0, by simpa using hg⟩
  intro s
  exact H (loopMeasure byteCount regMap s.1 s.2) s le_rfl

/-! ### Claim theorems -/

/-- C1 (code bug): the int32 branch combines bytes with `|`, whose result is
already the signed 32-bit value, and then subtracts 2^32 again whenever the
sign bit is set.  On window FF FF FF FF the decoded raw value is
-4294967297 = u - 2^33 (the claim's two's-complement reading gives -1), which
lies outside -2147483648..2147483647; the catalog's `power` register
(int32, little, scale 10) then yields -4294967297/10. -/
theorem c1_int32_decode_overflows :
    (decodeReg ⟨"x", "int32", 1, "big", none⟩ [255, 255, 255, 255] 0).1
        = some (DecodedValue.num (JsNum.q (-4294967297))) ∧
    (decodeReg ⟨"power", "int32", 10, "little", none⟩ [255, 255, 255, 255] 0).1
        = some (DecodedValue.num (JsNum.q (-4294967297 / 10))) ∧
    ((-4294967297 : ℚ) < -2147483648) := by
  refine ⟨?_, ?_, by norm_num⟩
  · with_unfolding_all rfl
  · with_unfolding_all rfl

set_option maxRecDepth 1000000 in
/-- C2 (code bug): on frame 01 03 06 00 64 00 00 00 01 00 02 (byteCount = 6,
so the declared register region ends at byte index 9) the decode loop reads
byte positions 9 and 10 for the 4-byte `energy_total` register: it does read
past the `3 + byteCount` boundary instead of treating the situation as an
out-of-range condition. -/
theorem c2_decode_reads_past_boundary :
    decodeUplinkReads [1, 3, 6, 0, 100, 0, 0, 0, 1, 0, 2] = [3, 4, 5, 6, 7, 8, 9, 10] ∧
    10 ∈ decodeUplinkReads [1, 3, 6, 0, 100, 0, 0, 0, 1, 0, 2] ∧
    ¬ (10 < 3 + byteAt [1, 3, 6, 0, 100, 0, 0, 0, 1, 0, 2] 2) := by
  have h : decodeUplinkReads [1, 3, 6, 0, 100, 0, 0, 0, 1, 0, 2] = [3, 4, 5, 6, 7, 8, 9, 10] := by
    with_unfolding_all rfl
  refine ⟨h, ?_, by decide⟩
  rw [h]
  decide

/-- C3 counterexample: a uint32 register with `mixed` endianness is not
decoded from the word-swapped window [b2,b3,b0,b1]; the uint32 branch applies
no reordering for `mixed`. -/
theorem c3_uint32_mixed_not_swapped :
    (decodeReg ⟨"x", "uint32", 1, "mixed", none⟩ [1, 2, 3, 4] 0).1
      ≠ (decodeReg ⟨"x", "uint32", 1, "big", none⟩ [3, 4, 1, 2] 0).1 := by
  have h1 : (decodeReg ⟨"x", "uint32", (1 : ℚ), "mixed", none⟩ [1, 2, 3, 4] 0).1
      = some (DecodedValue.num (JsNum.q 16909060)) := by with_unfolding_all rfl
  have h2 : (decodeReg ⟨"x", "uint32", (1 : ℚ), "big", none⟩ [3, 4, 1, 2] 0).1
      = some (DecodedValue.num (JsNum.q 50594050)) := by with_unfolding_all rfl
  intro hc
  rw [h1, h2] at hc
  simp only [Option.some.injEq, DecodedValue.num.injEq, JsNum.q.injEq] at hc
  norm_num at hc

/-- C3 (amended): the [b2,b3,b0,b1] word swap for `mixed` endianness is
applied only by the float32 branch (decoding a mixed window like a big-endian
swapped window); uint32 and int32 registers with `mixed` endianness decode
their window unchanged, exactly as if the endianness were `big`. -/
theorem c3_mixed_swap_float32_only :
    (∀ (m : RegisterDef) (b0 b1 b2 b3 : Nat),
        m.type = "float32" → m.endian = "mixed" →
        decodeReg m [b0, b1, b2, b3] 0 =
          decodeReg ⟨m.name, m.type, m.scale, "big", m.bitmask⟩ [b2, b3, b0, b1] 0) ∧
    (∀ (m : RegisterDef) (w : List Nat),
        (m.type = "uint32" ∨ m.type = "int32") → m.endian = "mixed" →
        decodeReg m w 0 = decodeReg ⟨m.name, m.type, m.scale, "big", m.bitmask⟩ w 0) := by
  constructor
  · rintro ⟨name, ty, sc, en, bm⟩ b0 b1 b2 b3 hty hen
    simp only at hty hen
    subst hty
    subst hen
    simp [decodeReg, byteAt]
  · rintro ⟨name, ty, sc, en, bm⟩ w hty hen
    simp only at hty hen
    rcases hty with h | h <;> subst h <;> subst hen <;> simp [decodeReg, byteAt]

/-- Witness for `c3_mixed_swap_float32_only` at a concrete float32 register
and window. -/
theorem c3_mixed_swap_float32_only_witness :
    decodeReg ⟨"voc", "float32", (1 : ℚ), "mixed", none⟩ [0, 0, 63, 128] 0 =
      decodeReg ⟨"voc", "float32", (1 : ℚ), "big", none⟩ [63, 128, 0, 0] 0 :=
  c3_mixed_swap_float32_only.1 ⟨"voc", "float32", (1 : ℚ), "mixed", none⟩ 0 0 63 128 rfl rfl

/-- C9: an undeclared register index (also every index of an unmapped slave)
stores the raw big-endian unsigned 16-bit value of the next two bytes,
unscaled, under the synthetic name `register_<index>`, reading exactly those
two positions, and continues at cursor + 2 with the next logical index. -/
theorem c9_unknown_register_fallback (bytes : List Nat) (byteCount : Nat)
    (regMap : List (Nat × RegisterDef)) (offset ri : Nat)
    (hm : lookupReg regMap ri = none) (hoff : offset < 3 + byteCount)
    (hb0 : byteAt bytes offset < 256) (hb1 : byteAt bytes (offset + 1) < 256) :
    decodeLoop bytes byteCount regMap offset ri =
      (("register_" ++ toString ri,
          DecodedValue.num (JsNum.q
            ((byteAt bytes offset * 256 + byteAt bytes (offset + 1) : Nat) : ℚ)))
        :: (decodeLoop bytes byteCount regMap (offset + 2) (ri + 1)).1,
       offset :: (offset + 1) :: (decodeLoop bytes byteCount regMap (offset + 2) (ri + 1)).2) := by
  rw [decodeLoop_fallback bytes byteCount regMap offset ri hoff hm]
  rw [jsOr_combine16 _ _ hb0 hb1]
  norm_cast

/-- Witness for `c9_unknown_register_fallback`: slave 9 is unmapped, so the
first register of frame 09 03 02 01 2C decodes to `register_0 = 300`. -/
theorem c9_unknown_register_fallback_witness :
    decodeLoop [9, 3, 2, 1, 44] 2 [] 3 0 =
      (("register_" ++ toString 0,
          DecodedValue.num (JsNum.q
            ((byteAt [9, 3, 2, 1, 44] 3 * 256 + byteAt [9, 3, 2, 1, 44] 4 : Nat) : ℚ)))
        :: (decodeLoop [9, 3, 2, 1, 44] 2 [] 5 1).1,
       3 :: 4 :: (decodeLoop [9, 3, 2, 1, 44] 2 [] 5 1).2) :=
  c9_unknown_register_fallback [9, 3, 2, 1, 44] 2 [] 3 0 rfl (by decide) (by decide) (by decide)

/-- C10: a mapped register whose type string matches none of the five known
types stores no field and leaves the byte cursor unchanged while the logical
index advances (its bytes are then consumed by later indices); and the loop
nevertheless terminates on every input: iterating the loop step always
reaches a state where the loop guard fails. -/
theorem c10_unknown_type_skips :
    (∀ (bytes : List Nat) (byteCount : Nat) (regMap : List (Nat × RegisterDef))
        (offset ri : Nat) (m : RegisterDef),
        lookupReg regMap ri = some m →
        m.type ≠ "uint16" → m.type ≠ "int16" → m.type ≠ "uint32" →
        m.type ≠ "int32" → m.type ≠ "float32" →
        decodeLoop bytes byteCount regMap offset ri =
          decodeLoop bytes byteCount regMap offset (ri + 1)) ∧
    (∀ (byteCount : Nat) (regMap : List (Nat × RegisterDef)) (s : Nat × Nat),
        ∃ n : Nat, ¬ (((loopStep byteCount regMap)^[n] s).1 < 3 + byteCount)) := by
  constructor
  · intro bytes bc map offset ri m hm h1 h2 h3 h4 h5
    by_cases hoff : offset < 3 + bc
    · have hreg : decodeReg m bytes offset = (none, 0, []) := by
        unfold decodeReg
        rw [if_neg h1, if_neg h2, if_neg h3, if_neg h4, if_neg h5]
      rw [decodeLoop_mapped bytes bc map offset ri m hoff hm, hreg]
      simp
    · rw [decodeLoop_stop _ _ _ _ _ hoff, decodeLoop_stop _ _ _ _ _ hoff]
  · exact loopStep_reaches_exit

/-- Witness for `c10_unknown_type_skips` at a register with type "weird". -/
theorem c10_unknown_type_skips_witness :
    decodeLoop [0, 0, 2, 5, 5] 2 [(0, ⟨"x", "weird", (1 : ℚ), "big", none⟩)] 3 0 =
      decodeLoop [0, 0, 2, 5, 5] 2 [(0, ⟨"x", "weird", (1 : ℚ), "big", none⟩)] 3 1 :=
  c10_unknown_type_skips.1 [0, 0, 2, 5, 5] 2 [(0, ⟨"x", "weird", (1 : ℚ), "big", none⟩)] 3 0
    ⟨"x", "weird", (1 : ℚ), "big", none⟩ rfl
    (by decide) (by decide) (by decide) (by decide) (by decide)

set_option maxRecDepth 1000000 in
/-- C4 counterexample: with 128 values, function code 16 succeeds but emits
byte-count field 256 at index 6, outside 0..255 (the source pushes
`count * 2` without masking). -/
theorem c4_byte_range_claim_false :
    (encodeDownlink ⟨some 1, some 16, some 0, some (List.replicate 128 0)⟩).isOk = true ∧
    (encodeDownlink ⟨some 1, some 16, some 0, some (List.replicate 128 0)⟩).okBytes.getD 6 0
      = 256 := by
  constructor
  · with_unfolding_all rfl
  · with_unfolding_all rfl

/-- C4 (amended): every element of a successful encode result is an integer
in 0..255 provided the values sequence has at most 127 entries (the
byte-count field is `values.length * 2` and leaves 0..255 beyond that). -/
theorem c4_bytes_in_range (inp : DownlinkInput) (bs : List Int)
    (henc : encodeDownlink inp = EncodeResult.ok bs)
    (hlen : ∀ vs, inp.values = some vs → vs.length ≤ 127) :
    ∀ b ∈ bs, 0 ≤ b ∧ b ≤ 255 := by
  obtain ⟨s, f, r, v⟩ := inp
  rcases s with _ | s
  · simp [encodeDownlink] at henc
  rcases f with _ | f
  · simp [encodeDownlink] at henc
  rcases r with _ | r
  · simp [encodeDownlink] at henc
  rcases v with _ | v
  · simp [encodeDownlink] at henc
  simp only [encodeDownlink] at henc
  by_cases h6 : f = 6
  · rw [if_pos h6] at henc
    injection henc with hbs
    subst hbs
    intro b hb
    simp only [List.cons_append, List.nil_append, List.mem_cons, List.not_mem_nil,
      or_false] at hb
    rcases hb with rfl | rfl | rfl | rfl | rfl | rfl <;>
      exact ⟨(jsAnd_255_range _).1, (jsAnd_255_range _).2⟩
  · by_cases h16 : f = 16
    · rw [if_neg h6, if_pos h16] at henc
      injection henc with hbs
      subst hbs
      intro b hb
      have hvl : v.length ≤ 127 := hlen v rfl
      simp only [List.append_assoc, List.cons_append, List.nil_append, List.mem_cons,
        List.mem_append, List.mem_flatMap, List.not_mem_nil, or_false] at hb
      rcases hb with rfl | rfl | rfl | rfl | rfl | rfl | rfl | ⟨x, hx, hxm⟩
      · exact ⟨(jsAnd_255_range _).1, (jsAnd_255_range _).2⟩
      · exact ⟨(jsAnd_255_range _).1, (jsAnd_255_range _).2⟩
      · exact ⟨(jsAnd_255_range _).1, (jsAnd_255_range _).2⟩
      · exact ⟨(jsAnd_255_range _).1, (jsAnd_255_range _).2⟩
      · exact ⟨(jsAnd_255_range _).1, (jsAnd_255_range _).2⟩
      · exact ⟨(jsAnd_255_range _).1, (jsAnd_255_range _).2⟩
      · constructor
        · positivity
        · have : ((v.length : Int)) ≤ 127 := by exact_mod_cast hvl
          omega
      · rcases hxm with rfl | rfl
        · exact ⟨(jsAnd_255_range _).1, (jsAnd_255_range _).2⟩
        · exact ⟨(jsAnd_255_range _).1, (jsAnd_255_range _).2⟩
    · rw [if_neg h6, if_neg h16] at henc
      cases henc

/-- Witness for `c4_bytes_in_range` at the encode example input. -/
theorem c4_bytes_in_range_witness :
    0 ≤ (encodeDownlink ⟨some 1, some 16, some 0, some [10, 20]⟩).okBytes.getD 6 0 ∧
    (encodeDownlink ⟨some 1, some 16, some 0, some [10, 20]⟩).okBytes.getD 6 0 ≤ 255 := by
  have h := c4_bytes_in_range ⟨some 1, some 16, some 0, some [10, 20]⟩
    ((encodeDownlink ⟨some 1, some 16, some 0, some [10, 20]⟩).okBytes)
    (by with_unfolding_all rfl)
    (by intro vs hvs; injection hvs with hv; rw [← hv]; decide)
  exact h _ (by with_unfolding_all decide)

/-- C5: `encodeDownlink` returns the error shape exactly when one of the four
fields is missing or the function code is neither 6 nor 16, and every error
result carries exactly one message (the success/error shapes are disjoint
constructors of `EncodeResult`). -/
theorem c5_encode_error_conditions (inp : DownlinkInput) :
    ((encodeDownlink inp).isOk = false ↔
      (inp.slaveAddress = none ∨ inp.functionCode = none ∨ inp.register = none ∨
        inp.values = none ∨ (inp.functionCode ≠ some 6 ∧ inp.functionCode ≠ some 16))) ∧
    ((encodeDownlink inp).isOk = false → ((encodeDownlink inp).errList).length = 1) := by
  obtain ⟨s, f, r, v⟩ := inp
  rcases s with _ | s <;> rcases f with _ | f <;> rcases r with _ | r <;> rcases v with _ | v <;>
    simp [encodeDownlink, EncodeResult.isOk, EncodeResult.errList]
  by_cases h6 : f = 6
  · subst h6
    simp
  · by_cases h16 : f = 16
    · subst h16
      simp
    · simp [h6, h16]

/-- Witness for `c5_encode_error_conditions` at the all-fields-missing input. -/
theorem c5_encode_error_conditions_witness :
    (encodeDownlink ⟨none, none, none, none⟩).isOk = false ∧
    ((encodeDownlink ⟨none, none, none, none⟩).errList).length = 1 := by
  have h := c5_encode_error_conditions ⟨none, none, none, none⟩
  have he : (encodeDownlink ⟨none, none, none, none⟩).isOk = false := h.1.mpr (Or.inl rfl)
  exact ⟨he, h.2 he⟩

/-- The per-value double push of the function-16 loop, rewritten from the
masked JavaScript operators to plain big-endian high/low bytes for values
in 0..65535. -/
theorem flatMap_push_eq (vs : List Int) (hv : ∀ v ∈ vs, 0 ≤ v ∧ v ≤ 65535) :
    vs.flatMap (fun v => [jsAnd (jsShr v 8) 255, jsAnd v 255])
      = vs.flatMap (fun v => [v / 256, v % 256]) := by
  induction vs with
  | nil => rfl
  | cons x t ih =>
      have hx := hv x (List.mem_cons_self x t)
      have ex1 : jsAnd (jsShr x 8) 255 = x / 256 := by
        rw [jsShr_eval x 8 8 (by decide) hx.1 (by omega)]
        norm_num
        rw [jsAnd_255_eq _ (by omega) (by omega)]
        omega
      have ex2 : jsAnd x 255 = x % 256 := jsAnd_255_eq x hx.1 (by omega)
      simp only [List.flatMap_cons, ex1, ex2,
        ih (fun v hvm => hv v (List.mem_cons_of_mem x hvm))]

/-- C6: for valid inputs, function code 16 encodes
[slave, 16, regHi, regLo, countHi, countLo, count*2, v0Hi, v0Lo, ...] with
big-endian fields and values in input order. -/
theorem c6_encode16_layout (s r : Int) (vs : List Int)
    (hs0 : 0 ≤ s) (hs1 : s ≤ 247) (hr0 : 0 ≤ r) (hr1 : r ≤ 65535)
    (hn : vs.length ≤ 65535) (hv : ∀ v ∈ vs, 0 ≤ v ∧ v ≤ 65535) :
    encodeDownlink ⟨some s, some 16, some r, some vs⟩ =
      EncodeResult.ok ([s, 16, r / 256, r % 256, (vs.length : Int) / 256,
        (vs.length : Int) % 256, (vs.length : Int) * 2] ++
        vs.flatMap (fun v => [v / 256, v % 256])) := by
  have hln0 : (0 : Int) ≤ (vs.length : Int) := by positivity
  have hln : (vs.length : Int) ≤ 65535 := by exact_mod_cast hn
  simp only [encodeDownlink]
  rw [if_pos trivial]
  have e1 : jsAnd s 255 = s := by
    rw [jsAnd_255_eq s hs0 (by omega)]
    omega
  have e2 : jsAnd 16 255 = (16 : Int) := by decide
  have e3 : jsAnd (jsShr r 8) 255 = r / 256 := by
    rw [jsShr_eval r 8 8 (by decide) hr0 (by omega)]
    norm_num
    rw [jsAnd_255_eq _ (by omega) (by omega)]
    omega
  have e4 : jsAnd r 255 = r % 256 := jsAnd_255_eq r hr0 (by omega)
  have e5 : jsAnd (jsShr (vs.length : Int) 8) 255 = (vs.length : Int) / 256 := by
    rw [jsShr_eval _ 8 8 (by decide) hln0 (by omega)]
    norm_num
    rw [jsAnd_255_eq _ (by omega) (by omega)]
    omega
  have e6 : jsAnd (vs.length : Int) 255 = (vs.length : Int) % 256 :=
    jsAnd_255_eq _ hln0 (by omega)
  rw [e1, e2, e3, e4, e5, e6, flatMap_push_eq vs hv]
  rfl

/-- Witness for `c6_encode16_layout`: register 0 with values [10, 20] from
slave 1 yields [1, 16, 0, 0, 0, 2, 4, 0, 10, 0, 20]. -/
theorem c6_encode16_layout_witness :
    encodeDownlink ⟨some 1, some 16, some 0, some [10, 20]⟩ =
      EncodeResult.ok [1, 16, 0, 0, 0, 2, 4, 0, 10, 0, 20] := by
  have h := c6_encode16_layout 1 0 [10, 20] (by norm_num) (by norm_num) (by norm_num)
    (by norm_num) (by decide)
    (by intro v hv; simp only [List.mem_cons, List.not_mem_nil, or_false] at hv;
        rcases hv with rfl | rfl <;> constructor <;> norm_num)
  rw [h]
  decide

theorem jsAnd_sign16_iff (x : Nat) (h : x < 65536) :
    (jsAnd ((x : Nat) : Int) 32768 = 0) ↔ x < 32768 := by
  have hb := jsAnd_sign16 x h
  rcases Nat.lt_or_ge x 32768 with hx | hx
  · rw [decide_eq_false (by omega)] at hb
    simp only [bne_eq_false_iff_eq] at hb
    simp [hb, hx]
  · rw [decide_eq_true hx] at hb
    have hne : jsAnd (x : Int) 32768 ≠ 0 := by simpa using hb
    simp only [hne, false_iff]
    omega

theorem decodeReg_int16 (name : String) (sc : ℚ) (en : String)
    (bm : Option (List (Nat × String))) (hi lo : Nat) (hhi : hi < 256) (hlo : lo < 256) :
    decodeReg ⟨name, "int16", sc, en, bm⟩ [hi, lo] 0 =
      (some (DecodedValue.num (jsDivNum (JsNum.q ((specInt16 en hi lo : Int) : ℚ)) sc)),
       2, [0, 1]) := by
  by_cases hen : en = "little"
  · subst hen
    have hu : lo * 256 + hi < 65536 := by omega
    simp only [decodeReg, byteAt, List.getD_cons_zero, List.getD_cons_succ,
      String.reduceEq, if_false, if_true, reduceIte, specInt16]
    rw [jsOr_combine16 lo hi hlo hhi, jsAnd_sign16 _ hu]
    rcases Nat.lt_or_ge (lo * 256 + hi) 32768 with hx | hx
    · rw [if_neg (by simp only [decide_eq_true_eq]; omega), if_neg (by omega)]
    · rw [if_pos (by simp only [decide_eq_true_eq]; omega), if_pos hx]
  · have hu : hi * 256 + lo < 65536 := by omega
    simp only [decodeReg, byteAt, List.getD_cons_zero, List.getD_cons_succ,
      String.reduceEq, if_false, if_true, reduceIte, specInt16, if_neg hen]
    rw [jsOr_combine16 hi lo hhi hlo, jsAnd_sign16 _ hu]
    rcases Nat.lt_or_ge (hi * 256 + lo) 32768 with hx | hx
    · rw [if_neg (by simp only [decide_eq_true_eq]; omega), if_neg (by omega)]
    · rw [if_pos (by simp only [decide_eq_true_eq]; omega), if_pos hx]

set_option maxRecDepth 400000 in
/-- C7: an int16 register decodes to the (byte-swapped when little-endian)
big-endian 16-bit combination with two's-complement conversion when bit
0x8000 is set, giving a raw value within -32768..32767 that is then divided
by the scale; in particular frame 01 03 02 FF 9C decodes to
temperature = -0.1 (raw -100, scale 1000). -/
theorem c7_int16_decode :
    (∀ (m : RegisterDef) (hi lo : Nat), m.type = "int16" → hi < 256 → lo < 256 →
        (decodeReg m [hi, lo] 0).1 =
          some (DecodedValue.num
            (jsDivNum (JsNum.q ((specInt16 m.endian hi lo : Int) : ℚ)) m.scale)) ∧
        -32768 ≤ specInt16 m.endian hi lo ∧ specInt16 m.endian hi lo ≤ 32767) ∧
    decodeUplink [1, 3, 2, 255, 156] =
      DecodeResult.data ⟨1, 3, [("temperature", DecodedValue.num (JsNum.q (-1 / 10)))]⟩ := by
  constructor
  · rintro ⟨name, ty, sc, en, bm⟩ hi lo hty hhi hlo
    simp only at hty
    subst hty
    refine ⟨?_, ?_, ?_⟩
    · rw [decodeReg_int16 name sc en bm hi lo hhi hlo]
    · simp only [specInt16]
      split <;> omega
    · simp only [specInt16]
      split <;> split <;> omega
  · with_unfolding_all rfl

/-- Witness for the universally quantified part of `c7_int16_decode` at the
catalog's temperature register on bytes FF 9C. -/
theorem c7_int16_decode_witness :
    (decodeReg ⟨"temperature", "int16", (1000 : ℚ), "big", none⟩ [255, 156] 0).1 =
      some (DecodedValue.num
        (jsDivNum (JsNum.q ((specInt16 "big" 255 156 : Int) : ℚ)) (1000 : ℚ))) :=
  (c7_int16_decode.1 ⟨"temperature", "int16", (1000 : ℚ), "big", none⟩ 255 156 rfl
    (by decide) (by decide)).1

theorem jsAnd_pow_testBit (u b : Nat) (hu : u < 65536) (hb : b < 16) :
    (jsAnd ((u : Nat) : Int) (jsShl 1 (b : Int)) != 0) = u.testBit b := by
  have hpow : (2 : Nat) ^ b < 65536 := by
    calc (2 : Nat) ^ b < 2 ^ 16 := Nat.pow_lt_pow_right (by norm_num) hb
      _ = 65536 := by norm_num
  have h1 : jsShl 1 (b : Int) = ((2 ^ b : Nat) : Int) := by
    have h2 := jsShl_eval 1 (b : Int) b (by rw [u32_natCast b (by omega)]; omega)
      (by omega) (by omega)
    simpa using h2
  rw [h1]
  unfold jsAnd
  rw [u32_natCast u (by omega), u32_natCast _ (by omega), Nat.and_two_pow]
  cases htb : u.testBit b
  · simp only [Bool.toNat_false, Nat.zero_mul]
    rw [asI32_small 0 (by norm_num)]
    simp
  · simp only [Bool.toNat_true, Nat.one_mul]
    rw [asI32_small _ (by omega)]
    have : (2 : Nat) ^ b ≠ 0 := by positivity
    simp [this]

theorem jsShr_and1_testBit (u b : Nat) (hu : u < 65536) (hb : b < 16) :
    (jsAnd (jsShr ((u : Nat) : Int) (b : Int)) 1 != 0) = u.testBit b := by
  rw [jsShr_eval (u : Int) (b : Int) b (by rw [u32_natCast b (by omega)]; omega)
      (by positivity) (by omega)]
  rw [show ((u : Int)) / 2 ^ b = ((u / 2 ^ b : Nat) : Int) by norm_cast]
  unfold jsAnd
  rw [u32_natCast _ (lt_of_le_of_lt (Nat.div_le_self u (2 ^ b))
        (by omega : u < 4294967296)),
      show u32 (1 : Int) = 1 from by decide, Nat.and_one_is_mod]
  rw [asI32_small _ (by omega)]
  rw [Nat.testBit_to_div_mod]
  rcases Nat.mod_two_eq_zero_or_one (u / 2 ^ b) with hm | hm <;> simp [hm]

/-- C8: for every uint16 register with a bitmask table (bit indices 0..15),
the decoded value is a flags mapping with exactly one boolean per table
entry, each boolean equal to `((raw >> bit) & 1) != 0` on the (optionally
byte-swapped) raw 16-bit value; the scale never appears in the result. -/
theorem c8_bitmask_decode (m : RegisterDef) (table : List (Nat × String)) (hi lo : Nat)
    (hty : m.type = "uint16") (hbm : m.bitmask = some table)
    (hbits : ∀ p ∈ table, p.1 < 16) (hhi : hi < 256) (hlo : lo < 256) :
    (decodeReg m [hi, lo] 0).1 =
      some (DecodedValue.flags (table.map (fun p =>
        (p.2, jsAnd (jsShr
            (((if m.endian = "little" then lo * 256 + hi else hi * 256 + lo : Nat) : Int))
            (p.1 : Int)) 1 != 0)))) := by
  obtain ⟨name, ty, sc, en, bm⟩ := m
  simp only at hty hbm ⊢
  subst hty
  subst hbm
  by_cases hen : en = "little"
  · subst hen
    have hu : lo * 256 + hi < 65536 := by omega
    simp only [decodeReg, byteAt, List.getD_cons_zero, List.getD_cons_succ,
      String.reduceEq, reduceIte, if_true]
    rw [jsOr_combine16 lo hi hlo hhi]
    have hmap : table.map (fun p =>
          (p.2, jsAnd ((lo * 256 + hi : Nat) : Int) (jsShl 1 (p.1 : Int)) != 0))
        = table.map (fun p =>
          (p.2, jsAnd (jsShr ((lo * 256 + hi : Nat) : Int) (p.1 : Int)) 1 != 0)) := by
      apply List.map_congr_left
      intro p hp
      have hb := hbits p hp
      have he := (jsAnd_pow_testBit (lo * 256 + hi) p.1 hu hb).trans
        (jsShr_and1_testBit (lo * 256 + hi) p.1 hu hb).symm
      rw [he]
    rw [hmap]
  · have hu : hi * 256 + lo < 65536 := by omega
    simp only [decodeReg, byteAt, List.getD_cons_zero, List.getD_cons_succ,
      String.reduceEq, reduceIte, if_true, if_neg hen]
    rw [jsOr_combine16 hi lo hhi hlo]
    have hmap : table.map (fun p =>
          (p.2, jsAnd ((hi * 256 + lo : Nat) : Int) (jsShl 1 (p.1 : Int)) != 0))
        = table.map (fun p =>
          (p.2, jsAnd (jsShr ((hi * 256 + lo : Nat) : Int) (p.1 : Int)) 1 != 0)) := by
      apply List.map_congr_left
      intro p hp
      have hb := hbits p hp
      have he := (jsAnd_pow_testBit (hi * 256 + lo) p.1 hu hb).trans
        (jsShr_and1_testBit (hi * 256 + lo) p.1 hu hb).symm
      rw [he]
    rw [hmap]

/-- Witness for `c8_bitmask_decode`: the catalog's status register on bytes
00 06 yields heater_on and fan_on true and the other flags false. -/
theorem c8_bitmask_decode_witness :
    (decodeReg ⟨"status", "uint16", (1 : ℚ), "big",
        some [(0, "system_ok"), (1, "heater_on"), (2, "fan_on"),
              (3, "error_flag"), (4, "maintenance_required")]⟩ [0, 6] 0).1 =
      some (DecodedValue.flags
        [("system_ok", false), ("heater_on", true), ("fan_on", true),
         ("error_flag", false), ("maintenance_required", false)]) := by
  have h := c8_bitmask_decode ⟨"status", "uint16", (1 : ℚ), "big",
      some [(0, "system_ok"), (1, "heater_on"), (2, "fan_on"),
            (3, "error_flag"), (4, "maintenance_required")]⟩
    [(0, "system_ok"), (1, "heater_on"), (2, "fan_on"),
     (3, "error_flag"), (4, "maintenance_required")] 0 6
    rfl rfl (by decide) (by decide) (by decide)
  rw [h]
  with_unfolding_all rfl
